import Mathlib

/-!
Shallow embedding, in Lean 4, of the duration-synchronization and
layout/compositing core of the DogMath lecture-video generator.

Numbers are modelled as exact rationals (`ℚ`).  Python `round(x, 3)` is
modelled by `round3`, Python `int(x)` (truncation toward zero) by `pyInt`.
The embedded functions mirror, branch for branch, the Python sources:

* `backend/src/timing_synchronizer/synchronizer.py`
  (`TimingSynchronizer.calculate_actual_durations`, `synchronize`);
* `backend/src/blackboard_video_generator/blackboard_video_generator.py`
  (`_scale_step_content`, `_auto_vertical_stack`, `generate_video`);
* `backend/src/blackboard_video_generator/utils/image_utils.py`
  (`blend_image_to_frame`).
-/

/-- Python `round(q, 3)`: round to three decimal places. -/
def round3 (q : ℚ) : ℚ := (round (q * 1000) : ℤ) / 1000

/-- Python `int(q)`: truncation toward zero. -/
def pyInt (q : ℚ) : ℤ := if 0 ≤ q then ⌊q⌋ else ⌈q⌉

/-- One blackboard step as read from `content_json["blackboard"]["steps"]`:
its `step_id` and its nominal `duration`. -/
structure Step where
  step_id : ℕ
  duration : ℚ
deriving DecidableEq

/-- One narration cue from `content_json["audio"]["narration"]`: theoretical
start and end times. -/
structure Narration where
  start_time : ℚ
  end_time : ℚ
deriving DecidableEq

/-- One measured audio segment from `audio_metadata`: its actual duration. -/
structure AudioSegment where
  duration : ℚ
deriving DecidableEq

/-- Lookup in the `original_durations_map` dict built by
`get_original_durations`: last binding for a repeated `step_id` wins, with a
default for absent keys (Python `dict.get(step_id, d)`). -/
def origDurD (steps : List Step) (sid : ℕ) (d : ℚ) : ℚ :=
  match steps with
  | [] => d
  | s :: rest => origDurD rest sid (if s.step_id = sid then s.duration else d)

/-- Entry of `original_step_timing_info`: a step id with its original start
time, end time and duration on the nominal timeline. -/
structure StepTiming where
  sid : ℕ
  ostart : ℚ
  oend : ℚ
  odur : ℚ
deriving DecidableEq

/-- The loop of synchronizer.py lines 220-231 building
`original_step_timing_info`, parameterized by the duration lookup. -/
def mkTiming (look : ℕ → ℚ) : List Step → ℚ → List StepTiming
  | [], _ => []
  | s :: rest, t =>
      let d := look s.step_id
      ⟨s.step_id, t, t + d, d⟩ :: mkTiming look rest (t + d)

/-- Original step timing table, as built in `calculate_actual_durations`
from `original_durations_map` (default 0 for a missing id). -/
def buildTiming (steps : List Step) : List StepTiming :=
  mkTiming (fun sid => origDurD steps sid 0) steps 0

/-- Entry of `steps_covered_by_this_narration`: a covered step id and its
`original_contribution_in_span` (overlap with the cue). -/
structure Covered where
  sid : ℕ
  contrib : ℚ
deriving DecidableEq

/-- Overlap of one step's original range with a cue's theoretical span
(synchronizer.py lines 266-271): `max(starts)`, `min(ends)`, zero when they
do not cross. -/
def overlapOf (ti : StepTiming) (ns ne : ℚ) : ℚ :=
  if max ti.ostart ns < min ti.oend ne then min ti.oend ne - max ti.ostart ns
  else 0

/-- The loop of synchronizer.py lines 265-278: steps whose original range
overlaps the cue's theoretical span by more than the 1e-6 epsilon. -/
def coveredSteps (timing : List StepTiming) (ns ne : ℚ) : List Covered :=
  timing.filterMap (fun ti =>
    if 1/1000000 < overlapOf ti ns ne then some ⟨ti.sid, overlapOf ti ns ne⟩
    else none)

/-- `total_original_duration_of_steps_in_narration_span`. -/
def sumContrib (cs : List Covered) : ℚ := (cs.map (fun c => c.contrib)).sum

/-- Pointwise dict update `acc[j] += x` on the accumulator. -/
def update (a : ℕ → ℚ) (j : ℕ) (x : ℚ) : ℕ → ℚ :=
  fun sid => if sid = j then a sid + x else a sid

/-- Body of the per-narration loop of `calculate_actual_durations`
(synchronizer.py lines 238-305) for one cue with measured duration `d`:
skip epsilon-small actual durations and non-positive theoretical spans,
skip cues covering no step, give everything to a single covered step when
the total overlap is epsilon-small, otherwise distribute proportionally. -/
def distributeCue (timing : List StepTiming) (a : ℕ → ℚ) (n : Narration) (d : ℚ) :
    ℕ → ℚ :=
  if d ≤ 1/1000000 then a
  else if n.end_time ≤ n.start_time then a
  else
    let cs := coveredSteps timing n.start_time n.end_time
    if cs = [] then a
    else
      let tot := sumContrib cs
      if tot ≤ 1/1000000 then
        match cs with
        | [c] => update a c.sid d
        | _ => a
      else
        cs.foldl (fun acc c => update acc c.sid (d * (c.contrib / tot))) a

/-- The full narration loop: fold `distributeCue` over the cue/measured
pairs, starting from the all-zero accumulator
`accumulated_new_step_durations_float`. -/
def accumulate (timing : List StepTiming) (pairs : List (Narration × ℚ)) : ℕ → ℚ :=
  pairs.foldl (fun a p => distributeCue timing a p.1 p.2) (fun _ => 0)

/-- Final per-step duration (synchronizer.py lines 307-321): a step whose
accumulator is epsilon-small falls back to its original duration; both
branches apply the 0.1 s floor and round to three decimals. -/
def finalDur (steps : List Step) (a : ℕ → ℚ) (sid : ℕ) : ℚ :=
  if a sid ≤ 1/1000000 then round3 (max (1/10) (origDurD steps sid (1/10)))
  else round3 (max (1/10) (a sid))

/-- Key list of a Python dict built by inserting in order: first occurrence
of each key, in encounter order. -/
def dedupKeys (l : List ℕ) : List ℕ :=
  l.foldl (fun acc x => if x ∈ acc then acc else acc ++ [x]) []

/-- `TimingSynchronizer.calculate_actual_durations` (synchronizer.py lines
184-329) as a map from inputs to the resulting `step_id → duration`
association list (in dict key order).  Empty steps give the empty dict;
empty narration or empty measured-segment lists fall back to the original
durations; otherwise actual durations are distributed over the cues. -/
def calculate_actual_durations (steps : List Step) (narrs : List Narration)
    (segs : List AudioSegment) : List (ℕ × ℚ) :=
  if steps = [] then []
  else if narrs = [] then
    (dedupKeys (steps.map (fun s => s.step_id))).map
      (fun sid => (sid, origDurD steps sid 0))
  else if segs = [] then
    (dedupKeys (steps.map (fun s => s.step_id))).map
      (fun sid => (sid, origDurD steps sid 0))
  else
    let timing := buildTiming steps
    let a := accumulate timing (narrs.zip (segs.map (fun sg => sg.duration)))
    (dedupKeys (steps.map (fun s => s.step_id))).map
      (fun sid => (sid, finalDur steps a sid))

/-- `TimingSynchronizer.synchronize` (synchronizer.py lines 461-504), at the
level of success or failure: an empty duration map is the error path
(`"error": "Failed to calculate actual step durations."`), a non-empty one
is adjusted and saved. -/
def synchronize (steps : List Step) (narrs : List Narration)
    (segs : List AudioSegment) : Option (List (ℕ × ℚ)) :=
  let r := calculate_actual_durations steps narrs segs
  if r = [] then none else some r

/-- Safe-zone margins as optionally declared canvas fractions
(`step["safe_zone"]`). -/
structure SafeZone where
  left : Option ℚ
  top : Option ℚ
  bottom : Option ℚ
  right : Option ℚ
deriving DecidableEq

/-- The module constant of blackboard_video_generator.py line 12: bottom
fraction reserved for captions. -/
def MIN_BOTTOM_SAFE : ℚ := 15/100

/-- Effective bottom margin computed by `_scale_step_content`
(blackboard_video_generator.py line 80):
`max(safe.get("bottom", MIN_BOTTOM_SAFE), MIN_BOTTOM_SAFE)`. -/
def scaleStepSafeBottom (safe : SafeZone) : ℚ :=
  max (safe.bottom.getD MIN_BOTTOM_SAFE) MIN_BOTTOM_SAFE

/-- Effective bottom margin computed by `_auto_vertical_stack`
(blackboard_video_generator.py line 168), same clamped expression. -/
def autoStackSafeBottom (safe : SafeZone) : ℚ :=
  max (safe.bottom.getD MIN_BOTTOM_SAFE) MIN_BOTTOM_SAFE

/-- Effective bottom margin computed by `generate_video` for explicit
placement (blackboard_video_generator.py line 240), same clamped
expression. -/
def generateVideoSafeBottom (safe : SafeZone) : ℚ :=
  max (safe.bottom.getD MIN_BOTTOM_SAFE) MIN_BOTTOM_SAFE

/-- Vertical scale constraint of `_scale_step_content` (lines 87-104):
available height over total stacked height, with the degenerate fallbacks
to 1. -/
def scaleV (sizes : List (ℚ × ℚ)) (vspace top bottom : ℚ) : ℚ :=
  if sizes = [] then 1
  else
    let totalH := (sizes.map Prod.snd).sum + vspace * ((sizes.length - 1 : ℕ) : ℚ)
    let availH := 1 - top - bottom
    if availH ≤ 0 then 1
    else if 0 < totalH then availH / totalH
    else 1

/-- Python `max` over the element width ratios, 0 when there are none
(lines 107-116). -/
def maxW (sizes : List (ℚ × ℚ)) : ℚ :=
  match sizes.map Prod.fst with
  | [] => 0
  | w :: ws => ws.foldl max w

/-- Horizontal scale constraint of `_scale_step_content` (lines 106-125):
available width over the widest element, with the degenerate fallbacks
to 1. -/
def scaleH (sizes : List (ℚ × ℚ)) (left right : ℚ) : ℚ :=
  let availW := 1 - left - right
  if availW ≤ 0 then 1
  else if 0 < maxW sizes then availW / maxW sizes
  else 1

/-- Combined scale of `_scale_step_content` lines 127-130:
`scale = min(max(0.001, scale_v), max(0.001, scale_h), 1.0)`. -/
def computeScale (sizes : List (ℚ × ℚ)) (vspace left top bottom right : ℚ) : ℚ :=
  min (min (max (1/1000) (scaleV sizes vspace top bottom))
           (max (1/1000) (scaleH sizes left right))) 1

/-- `_scale_step_content`'s scale for one step, with the declared safe zone
and spacing defaults of lines 77-84 applied. -/
def stepComputeScale (safe : SafeZone) (vspace : Option ℚ)
    (sizes : List (ℚ × ℚ)) : ℚ :=
  computeScale sizes (vspace.getD (1/50)) (safe.left.getD (1/20))
    (safe.top.getD (1/20)) (scaleStepSafeBottom safe) (safe.right.getD (2/5))

/-- Scale of the spec's words (§4.2 step 1), for refinement comparison with
`computeScale`: `min(s_v, s_h, 1.0)` with no lower clamp and no degenerate
fallbacks. -/
def specScale (sizes : List (ℚ × ℚ)) (vspace left top bottom right : ℚ) : ℚ :=
  min (min ((1 - top - bottom) /
              ((sizes.map Prod.snd).sum + vspace * ((sizes.length - 1 : ℕ) : ℚ)))
           ((1 - left - right) / maxW sizes)) 1

/-- One laid-out element: pixel bitmap dimensions and the derived
width/height ratios. -/
structure Elem where
  wpx : ℕ
  hpx : ℕ
  size : ℚ × ℚ
deriving DecidableEq

/-- Bitmap resampling of `_scale_step_content` lines 145-150:
`new = max(1, int(old * scale))`, and the ratio is recomputed from the new
pixel dimensions. -/
def resizeElem (W H : ℕ) (scale : ℚ) (e : Elem) : Elem :=
  let nw := max 1 (pyInt ((e.wpx : ℚ) * scale)).toNat
  let nh := max 1 (pyInt ((e.hpx : ℚ) * scale)).toNat
  ⟨nw, nh, ((nw : ℚ) / W, (nh : ℚ) / H)⟩

/-- `_scale_step_content` (lines 72-156) on a step whose elements all carry
valid sizes: compute the scale; when it is at least 1 leave every element
untouched, otherwise resample all of them. -/
def scaleStepContent (W H : ℕ) (safe : SafeZone) (vspace : Option ℚ)
    (elems : List Elem) : List Elem :=
  let scale := stepComputeScale safe vspace (elems.map Elem.size)
  if 1 ≤ scale then elems
  else elems.map (resizeElem W H scale)

/-- Global y anchor for explicit placement in `generate_video`
(lines 286-307): inside the safe area when its height is positive, else the
global center 0.5.  A missing position defaults to the safe-area center. -/
def explicitGlobalY (safe : SafeZone) (posy : Option ℚ) : ℚ :=
  let sTop := safe.top.getD (1/20)
  let availH := 1 - sTop - generateVideoSafeBottom safe
  match posy with
  | some y => if 0 < availH then sTop + y * availH else 1/2
  | none => if 0 < availH then sTop + (1/2) * availH else 1/2

/-- Element animation spec: optional declared duration and whether an exit
animation is declared (`'exit' in animation`). -/
structure Animation where
  duration : Option ℚ
  hasExit : Bool
deriving DecidableEq

/-- Fade-in frame count of `generate_video` lines 362-370:
`int(animation.get('duration', 1.0) * fps)` when an animation dict is
present, else 0. -/
def fadeInOf (anim : Option Animation) (fps : ℕ) : ℤ :=
  match anim with
  | none => 0
  | some an => pyInt ((an.duration.getD 1) * fps)

/-- Fade-out frame count of `generate_video` lines 362-370: as for fade-in
but only when an exit animation is declared. -/
def fadeOutOf (anim : Option Animation) (fps : ℕ) : ℤ :=
  match anim with
  | none => 0
  | some an => if an.hasExit then pyInt ((an.duration.getD 1) * fps) else 0

/-- One timeline entry as built by `generate_video` lines 372-381. -/
structure TimelineEntry where
  start_frame : ℤ
  end_frame : ℤ
  fade_in_frames : ℤ
  fade_out_frames : ℤ
deriving DecidableEq

/-- Timeline entry construction (lines 372-381): `start_frame` is always 0;
`end_frame` is `total_frames - fade_out_frames if fade_out_frames > 0 else
total_frames`. -/
def mkTimelineEntry (total : ℤ) (anim : Option Animation) (fps : ℕ) :
    TimelineEntry :=
  ⟨0,
   if 0 < fadeOutOf anim fps then total - fadeOutOf anim fps else total,
   fadeInOf anim fps,
   fadeOutOf anim fps⟩

/-- Frame-activity test of line 391:
`item['start_frame'] <= frame_idx < item['end_frame']`. -/
def activeAt (e : TimelineEntry) (idx : ℕ) : Bool :=
  decide (e.start_frame ≤ (idx : ℤ)) && decide ((idx : ℤ) < e.end_frame)

/-- Per-frame opacity of lines 393-397: linear ramp inside the fade-in or
fade-out windows, 1 otherwise. -/
def alphaAt (e : TimelineEntry) (idx : ℕ) : ℚ :=
  if 0 < e.fade_in_frames ∧ (idx : ℤ) < e.fade_in_frames then
    (idx : ℚ) / (e.fade_in_frames : ℚ)
  else if 0 < e.fade_out_frames ∧ e.end_frame - e.fade_out_frames ≤ (idx : ℤ) then
    ((e.end_frame : ℚ) - (idx : ℚ)) / (e.fade_out_frames : ℚ)
  else 1

/-- Composition of one frame (lines 385-409), abstracted to the list of
blend opacities of the active entries, in timeline order. -/
def frameAlphas (timeline : List TimelineEntry) (idx : ℕ) : List ℚ :=
  (timeline.filter (fun e => activeAt e idx)).map (fun e => alphaAt e idx)

/-- `total_frames = int(step.get('duration', 0) * fps)` of line 343,
clamped to ℕ because `range` of a negative count is empty. -/
def totalFramesOf (dur : ℚ) (fps : ℕ) : ℕ := (pyInt (dur * fps)).toNat

/-- The frame-emission loop of lines 385-409 for one step: one composited
frame per index in `range(total_frames)`. -/
def renderStepFrames (dur : ℚ) (fps : ℕ) (timeline : List TimelineEntry) :
    List (List ℚ) :=
  (List.range (totalFramesOf dur fps)).map (frameAlphas timeline)

/-- Start coordinate of the blend rectangle along one axis
(image_utils.py lines 67-72): center the bitmap on the pixel anchor, then
clamp with `max(0, min(start, frame - img))`. -/
def blendStart (fw iw : ℕ) (p : ℤ) : ℤ :=
  max 0 (min (p - ((iw / 2 : ℕ) : ℤ)) ((fw : ℤ) - (iw : ℤ)))

/-- Width kept after the bitmap crop of lines 74-84: when the region would
end past the frame edge the bitmap loses the overhang, never the frame. -/
def blendCropW (fw iw : ℕ) (p : ℤ) : ℤ :=
  let s := blendStart fw iw p
  if (fw : ℤ) < s + (iw : ℤ) then (iw : ℤ) - (s + (iw : ℤ) - (fw : ℤ)) else iw

/-- End coordinate of the blended region after the crop. -/
def blendEnd (fw iw : ℕ) (p : ℤ) : ℤ := blendStart fw iw p + blendCropW fw iw p

/-- Pixel anchor of lines 62-64: `int(x * frame_w)` from the fractional
anchor. -/
def pixelOf (x : ℚ) (fw : ℕ) : ℤ := pyInt (x * fw)

lemma round3_sub_abs_le (q : ℚ) : |round3 q - q| ≤ 1/2000 := by
  have h := abs_sub_round (q * 1000)
  have h2 : round3 q - q = (((round (q * 1000) : ℤ) : ℚ) - q * 1000) / 1000 := by
    unfold round3; ring
  rw [h2, abs_div, abs_sub_comm]
  rw [show |(1000 : ℚ)| = 1000 by norm_num]
  linarith

lemma round3_mono {a b : ℚ} (h : a ≤ b) : round3 a ≤ round3 b := by
  unfold round3
  have h1 : round (a * 1000) ≤ round (b * 1000) := by
    rw [round_eq, round_eq]
    exact Int.floor_le_floor (by linarith)
  have h2 : ((round (a * 1000) : ℤ) : ℚ) ≤ ((round (b * 1000) : ℤ) : ℚ) := by
    exact_mod_cast h1
  linarith

lemma round3_tenth : round3 (1/10) = 1/10 := by
  unfold round3
  norm_num [round_eq]

lemma round3_max_tenth_ge (x : ℚ) : 1/10 ≤ round3 (max (1/10) x) := by
  calc (1/10 : ℚ) = round3 (1/10) := round3_tenth.symm
    _ ≤ round3 (max (1/10) x) := round3_mono (le_max_left _ _)

lemma map_sum_update (l : List ℕ) (hnd : l.Nodup) (a : ℕ → ℚ) (j : ℕ) (x : ℚ)
    (hj : j ∈ l) :
    (l.map (update a j x)).sum = (l.map a).sum + x := by
  induction l with
  | nil => cases hj
  | cons i t ih =>
      rcases List.mem_cons.mp hj with h | h
      · subst h
        have hnot : j ∉ t := (List.nodup_cons.mp hnd).1
        have hmap : t.map (update a j x) = t.map a := by
          apply List.map_congr_left
          intro k hk
          have : k ≠ j := fun he => hnot (he ▸ hk)
          simp [update, this]
        simp only [List.map_cons, List.sum_cons, hmap, update, eq_self_iff_true,
          if_true]
        ring
      · have hne : i ≠ j := by
          rintro rfl
          exact (List.nodup_cons.mp hnd).1 h
        have := ih (List.nodup_cons.mp hnd).2 h
        simp only [List.map_cons, List.sum_cons, this, update, if_neg hne]
        ring

lemma foldl_update_sum (l : List ℕ) (hnd : l.Nodup) (f : Covered → ℚ)
    (cs : List Covered) (hmem : ∀ c ∈ cs, c.sid ∈ l) (a : ℕ → ℚ) :
    (l.map (cs.foldl (fun acc c => update acc c.sid (f c)) a)).sum
      = (l.map a).sum + (cs.map f).sum := by
  induction cs generalizing a with
  | nil => simp
  | cons c t ih =>
      have h1 := ih (fun c2 hc2 => hmem c2 (List.mem_cons_of_mem _ hc2))
        (update a c.sid (f c))
      have h2 := map_sum_update l hnd a c.sid (f c) (hmem c (List.mem_cons_self _ _))
      simp only [List.foldl_cons, List.map_cons, List.sum_cons]
      rw [h1, h2]
      ring

lemma sum_map_mul_div (cs : List Covered) (d tot : ℚ) :
    (cs.map (fun c => d * (c.contrib / tot))).sum = d * (sumContrib cs / tot) := by
  induction cs with
  | nil => simp [sumContrib]
  | cons c t ih =>
      simp only [sumContrib, List.map_cons, List.sum_cons] at ih ⊢
      rw [ih]
      ring

lemma mkTiming_map_sid (look : ℕ → ℚ) (l : List Step) (t : ℚ) :
    (mkTiming look l t).map StepTiming.sid = l.map Step.step_id := by
  induction l generalizing t with
  | nil => simp [mkTiming]
  | cons s rest ih => simp [mkTiming, ih]

lemma buildTiming_map_sid (steps : List Step) :
    (buildTiming steps).map StepTiming.sid = steps.map Step.step_id :=
  mkTiming_map_sid _ steps 0

lemma covered_cons (ti : StepTiming) (t : List StepTiming) (ns ne : ℚ) :
    coveredSteps (ti :: t) ns ne =
      if 1/1000000 < overlapOf ti ns ne then
        ⟨ti.sid, overlapOf ti ns ne⟩ :: coveredSteps t ns ne
      else coveredSteps t ns ne := by
  by_cases h : 1/1000000 < overlapOf ti ns ne
  · simp only [coveredSteps, List.filterMap_cons, if_pos h]
  · simp only [coveredSteps, List.filterMap_cons, if_neg h]

lemma covered_sid_mem (timing : List StepTiming) (ns ne : ℚ) (c : Covered)
    (hc : c ∈ coveredSteps timing ns ne) : c.sid ∈ timing.map StepTiming.sid := by
  unfold coveredSteps at hc
  rcases List.mem_filterMap.mp hc with ⟨ti, hti, hef⟩
  split at hef
  · rw [← Option.some.inj hef]
    exact List.mem_map_of_mem _ hti
  · exact absurd hef (by simp)

lemma covered_sids_sublist (timing : List StepTiming) (ns ne : ℚ) :
    ((coveredSteps timing ns ne).map Covered.sid).Sublist
      (timing.map StepTiming.sid) := by
  induction timing with
  | nil => simp [coveredSteps]
  | cons ti t ih =>
      rw [covered_cons, List.map_cons]
      by_cases h : 1/1000000 < overlapOf ti ns ne
      · rw [if_pos h, List.map_cons]
        exact ih.cons₂ _
      · rw [if_neg h]
        exact ih.cons _

lemma distribute_sum (timing : List StepTiming) (l : List ℕ) (hnd : l.Nodup)
    (a : ℕ → ℚ) (n : Narration) (d : ℚ)
    (hd : 1/1000000 < d) (hspan : n.start_time < n.end_time)
    (htot : 1/1000000 < sumContrib (coveredSteps timing n.start_time n.end_time))
    (hcov : ∀ c ∈ coveredSteps timing n.start_time n.end_time, c.sid ∈ l) :
    (l.map (distributeCue timing a n d)).sum = (l.map a).sum + d := by
  have hne : coveredSteps timing n.start_time n.end_time ≠ [] := by
    intro h
    rw [h] at htot
    norm_num [sumContrib] at htot
  have htot0 : sumContrib (coveredSteps timing n.start_time n.end_time) ≠ 0 :=
    ne_of_gt (lt_trans (by norm_num) htot)
  simp only [distributeCue]
  rw [if_neg (not_le.mpr hd), if_neg (not_le.mpr hspan), if_neg hne,
    if_neg (not_le.mpr htot)]
  rw [foldl_update_sum l hnd
    (fun c => d * (c.contrib / sumContrib (coveredSteps timing n.start_time n.end_time)))
    _ hcov a]
  rw [sum_map_mul_div, div_self htot0, mul_one]

lemma accumulate_sum_aux (timing : List StepTiming) (l : List ℕ) (hnd : l.Nodup)
    (hcov : ∀ (ns ne : ℚ) (c : Covered), c ∈ coveredSteps timing ns ne → c.sid ∈ l) :
    ∀ (pairs : List (Narration × ℚ)) (a : ℕ → ℚ),
      (∀ p ∈ pairs, 1/1000000 < p.2 ∧ p.1.start_time < p.1.end_time ∧
        1/1000000 < sumContrib (coveredSteps timing p.1.start_time p.1.end_time)) →
      (l.map (pairs.foldl (fun a2 p => distributeCue timing a2 p.1 p.2) a)).sum
        = (l.map a).sum + (pairs.map Prod.snd).sum := by
  intro pairs
  induction pairs with
  | nil => intro a hp; simp
  | cons p t ih =>
      intro a hp
      obtain ⟨h1, h2, h3⟩ := hp p (List.mem_cons_self _ _)
      simp only [List.foldl_cons, List.map_cons, List.sum_cons]
      rw [ih _ (fun q hq => hp q (List.mem_cons_of_mem _ hq))]
      rw [distribute_sum timing l hnd a p.1 p.2 h1 h2 h3
        (fun c hc => hcov _ _ c hc)]
      ring

lemma accumulate_sum (timing : List StepTiming) (l : List ℕ) (hnd : l.Nodup)
    (hcov : ∀ (ns ne : ℚ) (c : Covered), c ∈ coveredSteps timing ns ne → c.sid ∈ l)
    (pairs : List (Narration × ℚ))
    (hp : ∀ p ∈ pairs, 1/1000000 < p.2 ∧ p.1.start_time < p.1.end_time ∧
      1/1000000 < sumContrib (coveredSteps timing p.1.start_time p.1.end_time)) :
    (l.map (accumulate timing pairs)).sum = (pairs.map Prod.snd).sum := by
  unfold accumulate
  rw [accumulate_sum_aux timing l hnd hcov pairs _ hp]
  simp

lemma dedupKeys_aux (l acc : List ℕ) (hdis : ∀ x ∈ l, x ∉ acc) (hnd : l.Nodup) :
    l.foldl (fun acc2 x => if x ∈ acc2 then acc2 else acc2 ++ [x]) acc = acc ++ l := by
  induction l generalizing acc with
  | nil => simp
  | cons x t ih =>
      have hx : x ∉ acc := hdis x (List.mem_cons_self _ _)
      have hxt : x ∉ t := (List.nodup_cons.mp hnd).1
      simp only [List.foldl_cons, if_neg hx]
      rw [ih (acc ++ [x])]
      · simp
      · intro y hy
        simp only [List.mem_append, List.mem_singleton]
        rintro (hya | rfl)
        · exact hdis y (List.mem_cons_of_mem _ hy) hya
        · exact hxt hy
      · exact (List.nodup_cons.mp hnd).2

lemma dedupKeys_eq_self (l : List ℕ) (hnd : l.Nodup) : dedupKeys l = l := by
  unfold dedupKeys
  simpa using dedupKeys_aux l [] (by simp) hnd

lemma sum_sub_abs_le (l : List ℕ) (f g : ℕ → ℚ) (bd : ℚ)
    (h : ∀ i ∈ l, |f i - g i| ≤ bd) :
    |(l.map f).sum - (l.map g).sum| ≤ (l.length : ℚ) * bd := by
  induction l with
  | nil => simp
  | cons i t ih =>
      have h1 := h i (List.mem_cons_self _ _)
      have h2 := ih (fun j hj => h j (List.mem_cons_of_mem _ hj))
      simp only [List.map_cons, List.sum_cons, List.length_cons]
      have h3 : f i + (t.map f).sum - (g i + (t.map g).sum)
          = (f i - g i) + ((t.map f).sum - (t.map g).sum) := by ring
      rw [h3]
      calc |(f i - g i) + ((t.map f).sum - (t.map g).sum)|
          ≤ |f i - g i| + |(t.map f).sum - (t.map g).sum| := abs_add _ _
        _ ≤ bd + (t.length : ℚ) * bd := by linarith
        _ = ((t.length : ℚ) + 1) * bd := by ring
        _ = (((t.length : ℕ) + 1 : ℕ) : ℚ) * bd := by push_cast; ring

lemma sum_ge_card_mul (l : List ℕ) (f : ℕ → ℚ) (c : ℚ)
    (h : ∀ i ∈ l, c ≤ f i) : (l.length : ℚ) * c ≤ (l.map f).sum := by
  induction l with
  | nil => simp
  | cons i t ih =>
      have h1 := h i (List.mem_cons_self _ _)
      have h2 := ih (fun j hj => h j (List.mem_cons_of_mem _ hj))
      simp only [List.map_cons, List.sum_cons, List.length_cons]
      push_cast
      linarith

/-- Claim C1 (amended).  For a script with distinct step ids, index-aligned
narration and measured-segment lists, in which every cue's measured duration
exceeds the 1e-6 epsilon, every cue has a positive theoretical span and
overlaps the original step timeline by more than 1e-6 in total, and every
step accumulates at least the 0.1 s minimum duration, the sum of the
revised durations returned by `calculate_actual_durations` differs from the
sum of the measured segment durations by at most
`max(1.0, 5% · Σ measured)`. -/
theorem c1_duration_conservation
    (steps : List Step) (narrs : List Narration) (segs : List AudioSegment)
    (hsteps : steps ≠ [])
    (hnd : (steps.map Step.step_id).Nodup)
    (hnarrs : narrs ≠ []) (hsegs : segs ≠ [])
    (hlen : narrs.length = segs.length)
    (hcue : ∀ p ∈ narrs.zip (segs.map AudioSegment.duration),
      1/1000000 < p.2 ∧ p.1.start_time < p.1.end_time ∧
      1/1000000 < sumContrib
        (coveredSteps (buildTiming steps) p.1.start_time p.1.end_time))
    (hacc : ∀ sid ∈ steps.map Step.step_id,
      1/10 ≤ accumulate (buildTiming steps)
        (narrs.zip (segs.map AudioSegment.duration)) sid) :
    |((calculate_actual_durations steps narrs segs).map Prod.snd).sum
        - (segs.map AudioSegment.duration).sum|
      ≤ max 1 (5/100 * (segs.map AudioSegment.duration).sum) := by
  have hcalc : calculate_actual_durations steps narrs segs
      = (steps.map Step.step_id).map
          (fun sid => (sid,
            finalDur steps
              (accumulate (buildTiming steps)
                (narrs.zip (segs.map AudioSegment.duration)))
              sid)) := by
    unfold calculate_actual_durations
    rw [if_neg hsteps, if_neg hnarrs, if_neg hsegs]
    rw [dedupKeys_eq_self _ hnd]
  have hsnd : (calculate_actual_durations steps narrs segs).map Prod.snd
      = (steps.map Step.step_id).map
          (fun sid =>
            finalDur steps
              (accumulate (buildTiming steps)
                (narrs.zip (segs.map AudioSegment.duration)))
              sid) := by
    rw [hcalc, List.map_map]
    rfl
  have hfinal : ∀ sid ∈ steps.map Step.step_id,
      finalDur steps
        (accumulate (buildTiming steps)
          (narrs.zip (segs.map AudioSegment.duration))) sid
      = round3 (accumulate (buildTiming steps)
          (narrs.zip (segs.map AudioSegment.duration)) sid) := by
    intro sid hsid
    have h1 := hacc sid hsid
    have h2 : ¬ (accumulate (buildTiming steps)
        (narrs.zip (segs.map AudioSegment.duration)) sid ≤ 1/1000000) :=
      not_le.mpr (lt_of_lt_of_le (by norm_num) h1)
    unfold finalDur
    rw [if_neg h2, max_eq_right h1]
  have hcov : ∀ (ns ne : ℚ) (c : Covered),
      c ∈ coveredSteps (buildTiming steps) ns ne →
      c.sid ∈ steps.map Step.step_id := by
    intro ns ne c hc
    have h := covered_sid_mem _ _ _ _ hc
    rwa [buildTiming_map_sid] at h
  have hacc_sum : ((steps.map Step.step_id).map
        (accumulate (buildTiming steps)
          (narrs.zip (segs.map AudioSegment.duration)))).sum
      = (segs.map AudioSegment.duration).sum := by
    rw [accumulate_sum (buildTiming steps) _ hnd hcov _ hcue]
    rw [List.map_snd_zip]
    rw [List.length_map, ← hlen]
  have hdiff := sum_sub_abs_le (steps.map Step.step_id)
    (fun sid => round3 (accumulate (buildTiming steps)
      (narrs.zip (segs.map AudioSegment.duration)) sid))
    (accumulate (buildTiming steps)
      (narrs.zip (segs.map AudioSegment.duration)))
    (1/2000)
    (fun i _ => round3_sub_abs_le _)
  have hlow := sum_ge_card_mul (steps.map Step.step_id)
    (accumulate (buildTiming steps)
      (narrs.zip (segs.map AudioSegment.duration)))
    (1/10) hacc
  have hN0 : (0 : ℚ) ≤ ((steps.map Step.step_id).length : ℚ) := Nat.cast_nonneg _
  rw [hsnd, List.map_congr_left hfinal, ← hacc_sum]
  have h5 : ((steps.map Step.step_id).length : ℚ) * (1/2000)
      ≤ 5/100 * ((steps.map Step.step_id).map
          (accumulate (buildTiming steps)
            (narrs.zip (segs.map AudioSegment.duration)))).sum := by
    linarith
  exact le_trans (le_trans hdiff h5) (le_max_right _ _)

/-- Witness for C1 at a concrete two-step script with one cue covering both
steps. -/
theorem c1_witness :
    |((calculate_actual_durations [⟨1, 3⟩, ⟨2, 2⟩] [⟨0, 5⟩] [⟨6⟩]).map
          Prod.snd).sum
        - (([⟨6⟩] : List AudioSegment).map AudioSegment.duration).sum|
      ≤ max 1 (5/100 *
          (([⟨6⟩] : List AudioSegment).map AudioSegment.duration).sum) := by
  apply c1_duration_conservation
  · simp
  · decide
  · simp
  · simp
  · rfl
  · intro p hp
    simp only [List.zip, List.zipWith, List.map] at hp
    rw [List.mem_singleton] at hp
    subst hp
    norm_num [sumContrib, coveredSteps, overlapOf, buildTiming, mkTiming,
      origDurD, List.filterMap]
  · intro sid hsid
    fin_cases hsid <;>
      norm_num [accumulate, buildTiming, mkTiming, origDurD, distributeCue,
        coveredSteps, overlapOf, sumContrib, update, List.filterMap,
        List.foldl, List.zip, List.zipWith, min_def, max_def, ite_apply,
        List.cons_ne_nil]

/-- Counterexample to C1 as stated: one step of 3 s fully covered by the
first cue, plus a final cue lying entirely after the timeline.  Both cues
have positive measured duration and span, and the cues collectively overlap
every step, yet the dropped second cue (50 s of audio) pushes the total
drift to 50 s, far beyond `max(1, 5%·53)`. -/
theorem c1_counterexample :
    ((calculate_actual_durations [⟨1, 3⟩] [⟨0, 3⟩, ⟨10, 11⟩]
        [⟨3⟩, ⟨50⟩]).map Prod.snd).sum = 3 ∧
    (([⟨3⟩, ⟨50⟩] : List AudioSegment).map AudioSegment.duration).sum = 53 ∧
    ¬ (|(3 : ℚ) - 53| ≤ max 1 (5/100 * 53)) := by
  refine ⟨?_, by norm_num, ?_⟩
  · norm_num [calculate_actual_durations, accumulate, buildTiming, mkTiming,
      origDurD, distributeCue, coveredSteps, overlapOf, sumContrib, update,
      finalDur, dedupKeys, round3, round_eq, List.filterMap, List.foldl,
      List.zip, List.zipWith, min_def, max_def, ite_apply, List.cons_ne_nil]
  · rw [show (3 : ℚ) - 53 = -50 by norm_num, abs_neg,
      abs_of_nonneg (by norm_num : (0 : ℚ) ≤ 50)]
    norm_num [max_def]

lemma foldl_update_ne (cs : List Covered) (f : Covered → ℚ) (a : ℕ → ℚ) (j : ℕ)
    (h : ∀ c ∈ cs, c.sid ≠ j) :
    (cs.foldl (fun acc c => update acc c.sid (f c)) a) j = a j := by
  induction cs generalizing a with
  | nil => rfl
  | cons c t ih =>
      simp only [List.foldl_cons]
      rw [ih _ (fun c2 hc2 => h c2 (List.mem_cons_of_mem _ hc2))]
      have hne : ¬ (j = c.sid) := fun he => h c (List.mem_cons_self _ _) he.symm
      simp only [update, if_neg hne]

lemma foldl_update_at (cs : List Covered) (f : Covered → ℚ) (c : Covered) :
    ∀ (a : ℕ → ℚ), (cs.map Covered.sid).Nodup → c ∈ cs →
      (cs.foldl (fun acc c2 => update acc c2.sid (f c2)) a) c.sid
        = a c.sid + f c := by
  induction cs with
  | nil =>
      intro a _ hc
      cases hc
  | cons c0 t ih =>
      intro a hnd hc
      have hnd2 : (c0.sid :: t.map Covered.sid).Nodup := by simpa using hnd
      have hhead : c0.sid ∉ t.map Covered.sid := (List.nodup_cons.mp hnd2).1
      simp only [List.foldl_cons]
      rcases List.mem_cons.mp hc with rfl | hct
      · have hnot : ∀ c2 ∈ t, c2.sid ≠ c.sid := fun c2 hc2 he =>
          hhead (he ▸ List.mem_map_of_mem _ hc2)
        rw [foldl_update_ne t f _ c.sid hnot]
        simp [update]
      · have hne : ¬ (c.sid = c0.sid) := fun he =>
          hhead (he ▸ List.mem_map_of_mem _ hct)
        rw [ih _ (List.nodup_cons.mp hnd2).2 hct]
        simp only [update, if_neg hne]

/-- Claim C2 (amended).  For a script with distinct step ids and a cue whose
measured duration exceeds the 1e-6 epsilon, whose theoretical span is
positive, and whose total overlap with the original timeline exceeds 1e-6,
the per-cue distribution adds to each covered step's accumulator exactly
the measured duration times that step's overlap divided by the total
overlap; and on the 2-step script `[3, 2]` with one cue spanning `[1, 4)`
and measured duration 6 the revised durations are `[4.0, 2.0]`. -/
theorem c2_proportional_weights
    (steps : List Step) (hnd : (steps.map Step.step_id).Nodup)
    (a : ℕ → ℚ) (n : Narration) (d : ℚ)
    (hd : 1/1000000 < d) (hspan : n.start_time < n.end_time)
    (htot : 1/1000000 < sumContrib
      (coveredSteps (buildTiming steps) n.start_time n.end_time))
    (c : Covered)
    (hc : c ∈ coveredSteps (buildTiming steps) n.start_time n.end_time) :
    distributeCue (buildTiming steps) a n d c.sid
      = a c.sid + d * (c.contrib /
          sumContrib (coveredSteps (buildTiming steps) n.start_time n.end_time))
    ∧ calculate_actual_durations [⟨1, 3⟩, ⟨2, 2⟩] [⟨1, 4⟩] [⟨6⟩]
        = [(1, 4), (2, 2)] := by
  constructor
  · have hne : coveredSteps (buildTiming steps) n.start_time n.end_time ≠ [] :=
      List.ne_nil_of_mem hc
    have hcnd : ((coveredSteps (buildTiming steps) n.start_time
        n.end_time).map Covered.sid).Nodup := by
      apply List.Nodup.sublist (covered_sids_sublist _ _ _)
      rwa [buildTiming_map_sid]
    simp only [distributeCue]
    rw [if_neg (not_le.mpr hd), if_neg (not_le.mpr hspan), if_neg hne,
      if_neg (not_le.mpr htot)]
    exact foldl_update_at _ _ c a hcnd hc
  · norm_num [calculate_actual_durations, accumulate, buildTiming, mkTiming,
      origDurD, distributeCue, coveredSteps, overlapOf, sumContrib, update,
      finalDur, dedupKeys, round3, round_eq, List.filterMap, List.foldl,
      List.zip, List.zipWith, min_def, max_def, ite_apply, List.cons_ne_nil]

/-- Witness for C2: the Scenario A cue gives step 1 exactly
`6 · (2/3) = 4` seconds. -/
theorem c2_witness :
    distributeCue (buildTiming [⟨1, 3⟩, ⟨2, 2⟩]) (fun _ => 0) ⟨1, 4⟩ 6 1 = 4
    ∧ calculate_actual_durations [⟨1, 3⟩, ⟨2, 2⟩] [⟨1, 4⟩] [⟨6⟩]
        = [(1, 4), (2, 2)] := by
  have h := c2_proportional_weights [⟨1, 3⟩, ⟨2, 2⟩] (by decide)
    (fun _ => 0) ⟨1, 4⟩ 6 (by norm_num) (by norm_num)
    (by norm_num [sumContrib, coveredSteps, overlapOf, buildTiming, mkTiming,
      origDurD, List.filterMap])
    ⟨1, 2⟩
    (by norm_num [coveredSteps, overlapOf, buildTiming, mkTiming, origDurD,
      List.filterMap])
  refine ⟨(h.1).trans ?_, h.2⟩
  norm_num [sumContrib, coveredSteps, overlapOf, buildTiming, mkTiming,
    origDurD, List.filterMap]

/-- Counterexample to C2 as stated: a cue with positive measured duration
`1e-7` fully covering a 3 s step is skipped by the epsilon guard, so the
step's accumulator receives 0, not the claimed `1e-7 · (3/3)`. -/
theorem c2_counterexample :
    accumulate (buildTiming [⟨1, 3⟩]) [(⟨0, 3⟩, 1/10000000)] 1 = 0 ∧
    (1/10000000 : ℚ) * ((3 : ℚ) / 3) ≠ 0 := by
  constructor
  · norm_num [accumulate, buildTiming, mkTiming, origDurD, distributeCue,
      coveredSteps, overlapOf, sumContrib, update, List.filterMap,
      List.foldl, min_def, max_def, ite_apply, List.cons_ne_nil]
  · norm_num

/-- Claim C3 (amended).  When steps, narration and measured segments are all
present, every returned pair follows the code's two branches: a step whose
accumulator exceeds the 1e-6 epsilon gets `round(max(0.1, accumulator), 3)`;
a step whose accumulator is epsilon-small falls back to
`round(max(0.1, original_duration), 3)`; in both cases the result is at
least 0.1 s. -/
theorem c3_revised_formula_and_floor
    (steps : List Step) (narrs : List Narration) (segs : List AudioSegment)
    (hsteps : steps ≠ []) (hnarrs : narrs ≠ []) (hsegs : segs ≠ []) :
    ∀ p ∈ calculate_actual_durations steps narrs segs,
      (¬ (accumulate (buildTiming steps)
            (narrs.zip (segs.map AudioSegment.duration)) p.1 ≤ 1/1000000) →
        p.2 = round3 (max (1/10)
          (accumulate (buildTiming steps)
            (narrs.zip (segs.map AudioSegment.duration)) p.1))) ∧
      (accumulate (buildTiming steps)
          (narrs.zip (segs.map AudioSegment.duration)) p.1 ≤ 1/1000000 →
        p.2 = round3 (max (1/10) (origDurD steps p.1 (1/10)))) ∧
      1/10 ≤ p.2 := by
  intro p hp
  unfold calculate_actual_durations at hp
  rw [if_neg hsteps, if_neg hnarrs, if_neg hsegs] at hp
  rcases List.mem_map.mp hp with ⟨sid, hsid, rfl⟩
  dsimp only
  refine ⟨?_, ?_, ?_⟩
  · intro h
    simp only [finalDur, if_neg h]
  · intro h
    simp only [finalDur, if_pos h]
  · by_cases h : accumulate (buildTiming steps)
        (narrs.zip (segs.map AudioSegment.duration)) sid ≤ 1/1000000
    · simp only [finalDur, if_pos h]
      exact round3_max_tenth_ge _
    · simp only [finalDur, if_neg h]
      exact round3_max_tenth_ge _

/-- Witness for C3 at a one-step script whose single cue supplies 3 s. -/
theorem c3_witness :
    ((1 : ℕ), (3 : ℚ)).2 = round3 (max (1/10)
      (accumulate (buildTiming [⟨1, 3⟩])
        (([⟨0, 3⟩] : List Narration).zip
          (([⟨3⟩] : List AudioSegment).map AudioSegment.duration))
        ((1 : ℕ), (3 : ℚ)).1)) ∧
    (1 : ℚ)/10 ≤ ((1 : ℕ), (3 : ℚ)).2 := by
  have h := c3_revised_formula_and_floor [⟨1, 3⟩] [⟨0, 3⟩] [⟨3⟩]
    (by simp) (by simp) (by simp) ((1 : ℕ), (3 : ℚ))
    (by norm_num [calculate_actual_durations, accumulate, buildTiming,
      mkTiming, origDurD, distributeCue, coveredSteps, overlapOf, sumContrib,
      update, finalDur, dedupKeys, round3, round_eq, List.filterMap,
      List.foldl, List.zip, List.zipWith, min_def, max_def, ite_apply,
      List.cons_ne_nil])
  exact ⟨h.1 (by norm_num [accumulate, buildTiming, mkTiming, origDurD,
      distributeCue, coveredSteps, overlapOf, sumContrib, update,
      List.filterMap, List.foldl, List.zip, List.zipWith, min_def, max_def,
      ite_apply, List.cons_ne_nil]), h.2.2⟩

/-- Counterexample to C3 as stated: step 2 receives no audio, and the code
returns its original 5 s, not the claimed `round(max(0.1, 0), 3) = 0.1`. -/
theorem c3_counterexample :
    calculate_actual_durations [⟨1, 3⟩, ⟨2, 5⟩] [⟨0, 3⟩] [⟨4⟩]
      = [(1, 4), (2, 5)] ∧
    accumulate (buildTiming [⟨1, 3⟩, ⟨2, 5⟩]) [(⟨0, 3⟩, 4)] 2 = 0 ∧
    round3 (max (1/10) (0 : ℚ)) = 1/10 ∧
    ((5 : ℚ) ≠ 1/10) := by
  refine ⟨?_, ?_, ?_, by norm_num⟩ <;>
    norm_num [calculate_actual_durations, accumulate, buildTiming, mkTiming,
      origDurD, distributeCue, coveredSteps, overlapOf, sumContrib, update,
      finalDur, dedupKeys, round3, round_eq, List.filterMap, List.foldl,
      List.zip, List.zipWith, min_def, max_def, ite_apply, List.cons_ne_nil]

/-- Claim C6 (amended).  Every epsilon-small, zero-span or fully unmapped
cue contributes nothing to any step's accumulator, with no exception for
the final such cue. -/
theorem c6_unmapped_cue_dropped
    (timing : List StepTiming) (a : ℕ → ℚ) (n : Narration) (d : ℚ)
    (h : d ≤ 1/1000000 ∨ n.end_time ≤ n.start_time ∨
      coveredSteps timing n.start_time n.end_time = []) :
    distributeCue timing a n d = a := by
  by_cases h1 : d ≤ 1/1000000
  · simp only [distributeCue, if_pos h1]
  · by_cases h2 : n.end_time ≤ n.start_time
    · simp only [distributeCue, if_neg h1, if_pos h2]
    · rcases h with h | h | h
      · exact absurd h h1
      · exact absurd h h2
      · simp only [distributeCue, if_neg h1, if_neg h2, if_pos h]

/-- Witness for C6: a final cue lying entirely beyond the 3 s timeline
contributes nothing. -/
theorem c6_witness :
    distributeCue (buildTiming [⟨1, 3⟩]) (fun _ => 0) ⟨5, 6⟩ 2
      = (fun _ => 0) :=
  c6_unmapped_cue_dropped _ _ _ _
    (Or.inr (Or.inr (by norm_num [coveredSteps, overlapOf, buildTiming,
      mkTiming, origDurD, List.filterMap])))

/-- Counterexample to C6 as stated: with one 3 s step, a first cue matching
it exactly and a final fully unmapped cue of 2 s, the code returns 3 s for
the step; the claimed fallback of the final cue to the last step would give
5 s. -/
theorem c6_counterexample :
    calculate_actual_durations [⟨1, 3⟩] [⟨0, 3⟩, ⟨5, 6⟩] [⟨3⟩, ⟨2⟩]
      = [(1, 3)] ∧
    ([((1 : ℕ), (3 : ℚ))] : List (ℕ × ℚ)) ≠ [(1, 5)] := by
  constructor
  · norm_num [calculate_actual_durations, accumulate, buildTiming, mkTiming,
      origDurD, distributeCue, coveredSteps, overlapOf, sumContrib, update,
      finalDur, dedupKeys, round3, round_eq, List.filterMap, List.foldl,
      List.zip, List.zipWith, min_def, max_def, ite_apply, List.cons_ne_nil]
  · norm_num

lemma dedupKeys_ne_nil (l : List ℕ) (h : l ≠ []) : dedupKeys l ≠ [] := by
  have haux : ∀ (l2 acc : List ℕ), acc ≠ [] →
      l2.foldl (fun acc2 y => if y ∈ acc2 then acc2 else acc2 ++ [y]) acc
        ≠ [] := by
    intro l2
    induction l2 with
    | nil =>
        intro acc h2
        exact h2
    | cons y t2 ih =>
        intro acc h2
        simp only [List.foldl_cons]
        by_cases hy : y ∈ acc
        · rw [if_pos hy]
          exact ih acc h2
        · rw [if_neg hy]
          exact ih _ (by simp)
  cases l with
  | nil => exact absurd rfl h
  | cons x t =>
      unfold dedupKeys
      simp only [List.foldl_cons, List.not_mem_nil, if_false,
        List.nil_append]
      exact haux t [x] (by simp)

/-- Claim C7 (amended).  An empty step list makes `synchronize` fail with
the error result, but an empty narration list, or an empty measured-segment
list, with steps present is not a failure: `calculate_actual_durations`
falls back to the original durations and synchronization completes. -/
theorem c7_failure_modes
    (steps : List Step) (narrs : List Narration) (segs : List AudioSegment) :
    synchronize [] narrs segs = none ∧
    (steps ≠ [] → narrs = [] →
      synchronize steps narrs segs
        = some ((dedupKeys (steps.map (fun s => s.step_id))).map
            (fun sid => (sid, origDurD steps sid 0)))) ∧
    (steps ≠ [] → segs = [] →
      synchronize steps narrs segs
        = some ((dedupKeys (steps.map (fun s => s.step_id))).map
            (fun sid => (sid, origDurD steps sid 0)))) := by
  refine ⟨?_, ?_, ?_⟩
  · unfold synchronize calculate_actual_durations
    rw [if_pos rfl]
    simp
  · intro hsteps hnarrs
    subst hnarrs
    have hkeys : dedupKeys (steps.map (fun s => s.step_id)) ≠ [] := by
      apply dedupKeys_ne_nil
      simpa using hsteps
    unfold synchronize calculate_actual_durations
    rw [if_neg hsteps, if_pos rfl]
    rw [if_neg (by simpa using hkeys)]
  · intro hsteps hsegs
    subst hsegs
    have hkeys : dedupKeys (steps.map (fun s => s.step_id)) ≠ [] := by
      apply dedupKeys_ne_nil
      simpa using hsteps
    by_cases hnarrs : narrs = []
    · subst hnarrs
      unfold synchronize calculate_actual_durations
      rw [if_neg hsteps, if_pos rfl]
      rw [if_neg (by simpa using hkeys)]
    · unfold synchronize calculate_actual_durations
      rw [if_neg hsteps, if_neg hnarrs, if_pos rfl]
      rw [if_neg (by simpa using hkeys)]

/-- Witness for C7: one step with no narration succeeds with the original
duration, and so does one step with a narration cue but no measured
segments. -/
theorem c7_witness :
    synchronize [⟨1, 2⟩] [] [⟨5⟩]
      = some ((dedupKeys (([⟨1, 2⟩] : List Step).map (fun s => s.step_id))).map
          (fun sid => (sid, origDurD [⟨1, 2⟩] sid 0))) ∧
    synchronize [⟨1, 2⟩] [⟨0, 2⟩] []
      = some ((dedupKeys (([⟨1, 2⟩] : List Step).map (fun s => s.step_id))).map
          (fun sid => (sid, origDurD [⟨1, 2⟩] sid 0))) :=
  ⟨(c7_failure_modes [⟨1, 2⟩] [] [⟨5⟩]).2.1 (by simp) rfl,
   (c7_failure_modes [⟨1, 2⟩] [⟨0, 2⟩] []).2.2 (by simp) rfl⟩

/-- Counterexample to C7 as stated: with steps present but no narration
data, `synchronize` succeeds (returning the original durations) instead of
terminating with a failure. -/
theorem c7_counterexample :
    synchronize [⟨1, 2⟩] [] [⟨5⟩] = some [(1, 2)] ∧
    some [((1 : ℕ), (2 : ℚ))] ≠ (none : Option (List (ℕ × ℚ))) := by
  constructor
  · norm_num [synchronize, calculate_actual_durations, dedupKeys, origDurD,
      List.foldl]
  · simp

/-- Claim C4 (amended).  For a step with non-negative duration the render
loop emits exactly `int(duration · fps)` composited frames — truncation,
not rounding. -/
theorem c4_frame_count (dur : ℚ) (fps : ℕ) (tl : List TimelineEntry)
    (h : 0 ≤ dur) :
    ((renderStepFrames dur fps tl).length : ℤ) = ⌊dur * fps⌋ := by
  have h0 : (0 : ℚ) ≤ dur * fps := mul_nonneg h (by positivity)
  simp only [renderStepFrames, List.length_map, List.length_range,
    totalFramesOf, pyInt, if_pos h0]
  exact Int.toNat_of_nonneg (Int.floor_nonneg.mpr h0)

/-- Witness for C4 at a 2 s step rendered at 30 fps. -/
theorem c4_witness :
    ((renderStepFrames 2 30 []).length : ℤ) = ⌊(2 : ℚ) * 30⌋ :=
  c4_frame_count 2 30 [] (by norm_num)

/-- Counterexample to C4 as stated: a 1.99 s step at 30 fps emits
`int(59.7) = 59` frames, not `round(59.7) = 60`. -/
theorem c4_counterexample :
    ((renderStepFrames (199/100) 30 []).length : ℤ) = 59 ∧
    round ((199 : ℚ)/100 * 30) = 60 ∧ ((59 : ℤ) ≠ 60) := by
  refine ⟨?_, ?_, by norm_num⟩
  · simp only [renderStepFrames, List.length_map, List.length_range,
      totalFramesOf, pyInt]
    norm_num
  · norm_num [round_eq]

/-- Claim C8 (amended).  Every timeline entry has `start_frame = 0`; an
element with no positive fade-out (no exit animation) has
`end_frame = total_frames` and is active on every frame of the step, while
a positive fade-out shortens `end_frame` to `total_frames −
fade_out_frames`. -/
theorem c8_timeline_range (total : ℤ) (anim : Option Animation) (fps : ℕ)
    (idx : ℕ) :
    (mkTimelineEntry total anim fps).start_frame = 0 ∧
    (fadeOutOf anim fps ≤ 0 →
      (mkTimelineEntry total anim fps).end_frame = total ∧
      ((idx : ℤ) < total → activeAt (mkTimelineEntry total anim fps) idx = true)) ∧
    (0 < fadeOutOf anim fps →
      (mkTimelineEntry total anim fps).end_frame = total - fadeOutOf anim fps) := by
  refine ⟨rfl, ?_, ?_⟩
  · intro h
    have hn : ¬ (0 < fadeOutOf anim fps) := not_lt.mpr h
    constructor
    · simp only [mkTimelineEntry, if_neg hn]
    · intro hidx
      simp only [activeAt, mkTimelineEntry, if_neg hn, Bool.and_eq_true,
        decide_eq_true_eq]
      exact ⟨Int.natCast_nonneg idx, hidx⟩
  · intro h
    simp only [mkTimelineEntry, if_pos h]

/-- Witness for C8: an element with no animation in a 90-frame step spans
the whole step and is active at frame 5. -/
theorem c8_witness :
    (mkTimelineEntry 90 none 30).start_frame = 0 ∧
    (mkTimelineEntry 90 none 30).end_frame = 90 ∧
    activeAt (mkTimelineEntry 90 none 30) 5 = true := by
  have h := c8_timeline_range 90 none 30 5
  have hz : fadeOutOf none 30 ≤ 0 := by norm_num [fadeOutOf]
  exact ⟨h.1, (h.2.1 hz).1, (h.2.1 hz).2 (by norm_num)⟩

/-- Counterexample to C8 as stated: an element declaring an exit animation
of 1 s in a 90-frame step gets `end_frame = 60`, not 90, and is inactive at
frame 75 even though no explicit frame sub-range was declared. -/
theorem c8_counterexample :
    (mkTimelineEntry 90 (some ⟨some 1, true⟩) 30).start_frame = 0 ∧
    (mkTimelineEntry 90 (some ⟨some 1, true⟩) 30).end_frame = 60 ∧
    ((60 : ℤ) ≠ 90) ∧
    activeAt (mkTimelineEntry 90 (some ⟨some 1, true⟩) 30) 75 = false := by
  refine ⟨rfl, ?_, by norm_num, ?_⟩
  · norm_num [mkTimelineEntry, fadeOutOf, pyInt]
  · norm_num [activeAt, mkTimelineEntry, fadeOutOf, fadeInOf, pyInt]

/-- Claim C9.  All three layout computations clamp the declared bottom
margin with `max(·, MIN_BOTTOM_SAFE)`, so the effective bottom margin is
never below the 0.15 canvas-fraction floor, whatever smaller value was
declared. -/
theorem c9_bottom_floor (safe : SafeZone) :
    MIN_BOTTOM_SAFE ≤ scaleStepSafeBottom safe ∧
    MIN_BOTTOM_SAFE ≤ autoStackSafeBottom safe ∧
    MIN_BOTTOM_SAFE ≤ generateVideoSafeBottom safe :=
  ⟨le_max_right _ _, le_max_right _ _, le_max_right _ _⟩

/-- Claim C5 (amended).  For a step whose elements all carry valid sizes
and whose safe extents, stacked height and widest element are positive, the
layout scale equals `min(max(0.001, s_v), max(0.001, s_h), 1.0)` — the code
clamps each constraint below at 0.001 before taking the minimum — so the
scale never exceeds 1.0, and when it is exactly 1.0 every element's bitmap
and size are left unchanged. -/
theorem c5_scale_formula (W H : ℕ) (safe : SafeZone) (vspace : Option ℚ)
    (elems : List Elem)
    (hne : elems.map Elem.size ≠ [])
    (havailH : 0 < 1 - (safe.top.getD (1/20)) - scaleStepSafeBottom safe)
    (havailW : 0 < 1 - (safe.left.getD (1/20)) - (safe.right.getD (2/5)))
    (htotH : 0 < ((elems.map Elem.size).map Prod.snd).sum
      + (vspace.getD (1/50)) * ((((elems.map Elem.size).length - 1 : ℕ)) : ℚ))
    (hmaxW : 0 < maxW (elems.map Elem.size)) :
    stepComputeScale safe vspace (elems.map Elem.size)
      = min (min
          (max (1/1000)
            ((1 - (safe.top.getD (1/20)) - scaleStepSafeBottom safe)
              / (((elems.map Elem.size).map Prod.snd).sum
                + (vspace.getD (1/50))
                  * ((((elems.map Elem.size).length - 1 : ℕ)) : ℚ))))
          (max (1/1000)
            ((1 - (safe.left.getD (1/20)) - (safe.right.getD (2/5)))
              / maxW (elems.map Elem.size)))) 1 ∧
    stepComputeScale safe vspace (elems.map Elem.size) ≤ 1 ∧
    (stepComputeScale safe vspace (elems.map Elem.size) = 1 →
      scaleStepContent W H safe vspace elems = elems) := by
  have heqV : scaleV (elems.map Elem.size) (vspace.getD (1/50))
      (safe.top.getD (1/20)) (scaleStepSafeBottom safe)
      = (1 - (safe.top.getD (1/20)) - scaleStepSafeBottom safe)
          / (((elems.map Elem.size).map Prod.snd).sum
            + (vspace.getD (1/50))
              * ((((elems.map Elem.size).length - 1 : ℕ)) : ℚ)) := by
    simp only [scaleV, if_neg hne]
    rw [if_neg (not_le.mpr havailH), if_pos htotH]
  have heqH : scaleH (elems.map Elem.size) (safe.left.getD (1/20))
      (safe.right.getD (2/5))
      = (1 - (safe.left.getD (1/20)) - (safe.right.getD (2/5)))
          / maxW (elems.map Elem.size) := by
    simp only [scaleH]
    rw [if_neg (not_le.mpr havailW), if_pos hmaxW]
  refine ⟨?_, ?_, ?_⟩
  · unfold stepComputeScale computeScale
    rw [heqV, heqH]
  · unfold stepComputeScale computeScale
    exact min_le_right _ _
  · intro h1
    unfold scaleStepContent
    rw [if_pos (le_of_eq h1.symm)]

/-- Witness for C5: a single element of size `(0.5, 0.2)` fits the default
safe area, the scale is exactly 1 and the element list is unchanged. -/
theorem c5_witness :
    stepComputeScale ⟨none, none, none, none⟩ none
      (([⟨100, 50, (1/2, 1/5)⟩] : List Elem).map Elem.size) ≤ 1 ∧
    scaleStepContent 1920 1080 ⟨none, none, none, none⟩ none
      [⟨100, 50, (1/2, 1/5)⟩] = [⟨100, 50, (1/2, 1/5)⟩] := by
  have h := c5_scale_formula 1920 1080 ⟨none, none, none, none⟩ none
    [⟨100, 50, (1/2, 1/5)⟩]
    (by simp)
    (by norm_num [scaleStepSafeBottom, MIN_BOTTOM_SAFE])
    (by norm_num)
    (by norm_num)
    (by norm_num [maxW])
  refine ⟨h.2.1, h.2.2 ?_⟩
  norm_num [stepComputeScale, computeScale, scaleV, scaleH, maxW,
    scaleStepSafeBottom, MIN_BOTTOM_SAFE, min_def, max_def]

/-- Counterexample to C5 as stated: one element 1800 canvas heights tall
drives `s_v = 0.8/1800 = 1/2250 < 0.001`; the code clamps the result to
0.001, while the claimed `min(s_v, s_h, 1.0)` is `1/2250`. -/
theorem c5_counterexample :
    stepComputeScale ⟨none, none, none, none⟩ none [((1 : ℚ)/2, 1800)]
      = 1/1000 ∧
    specScale [((1 : ℚ)/2, 1800)] (1/50) (1/20) (1/20)
      (scaleStepSafeBottom ⟨none, none, none, none⟩) (2/5) = 1/2250 ∧
    ((1 : ℚ)/1000 ≠ 1/2250) := by
  refine ⟨?_, ?_, by norm_num⟩ <;>
    norm_num [stepComputeScale, computeScale, scaleV, scaleH, maxW,
      specScale, scaleStepSafeBottom, MIN_BOTTOM_SAFE, min_def, max_def]

lemma blend_bounds_axis (fw iw : ℕ) (p : ℤ) :
    0 ≤ blendStart fw iw p ∧ blendEnd fw iw p ≤ (fw : ℤ) ∧
    0 ≤ blendCropW fw iw p ∧ blendCropW fw iw p ≤ (iw : ℤ) := by
  have hs0 : 0 ≤ blendStart fw iw p := le_max_left _ _
  have hsle : blendStart fw iw p ≤ (fw : ℤ) := by
    unfold blendStart
    have h1 : min (p - ((iw / 2 : ℕ) : ℤ)) ((fw : ℤ) - (iw : ℤ))
        ≤ (fw : ℤ) - (iw : ℤ) := min_le_right _ _
    have h2 : (fw : ℤ) - (iw : ℤ) ≤ (fw : ℤ) := by
      have := Int.natCast_nonneg iw
      linarith
    exact max_le (Int.natCast_nonneg fw) (le_trans h1 h2)
  refine ⟨hs0, ?_, ?_, ?_⟩
  · unfold blendEnd blendCropW
    by_cases h : (fw : ℤ) < blendStart fw iw p + (iw : ℤ)
    · rw [if_pos h]
      linarith
    · rw [if_neg h]
      linarith [not_lt.mp h]
  · unfold blendCropW
    by_cases h : (fw : ℤ) < blendStart fw iw p + (iw : ℤ)
    · rw [if_pos h]
      linarith
    · rw [if_neg h]
      exact Int.natCast_nonneg iw
  · unfold blendCropW
    by_cases h : (fw : ℤ) < blendStart fw iw p + (iw : ℤ)
    · rw [if_pos h]
      linarith
    · rw [if_neg h]

/-- Claim C10.  For every frame, bitmap and fractional anchor in `[0,1]²`,
the blend region computed by `blend_image_to_frame` starts at non-negative
coordinates, ends at or before the frame's right and bottom edges, and its
extent never exceeds the bitmap's: the bitmap is cropped, never the
frame. -/
theorem c10_blend_in_bounds (fw fh iw ihh : ℕ) (x y : ℚ)
    (hx0 : 0 ≤ x) (hx1 : x ≤ 1) (hy0 : 0 ≤ y) (hy1 : y ≤ 1) :
    (0 ≤ blendStart fw iw (pixelOf x fw) ∧
      blendEnd fw iw (pixelOf x fw) ≤ (fw : ℤ) ∧
      blendCropW fw iw (pixelOf x fw) ≤ (iw : ℤ)) ∧
    (0 ≤ blendStart fh ihh (pixelOf y fh) ∧
      blendEnd fh ihh (pixelOf y fh) ≤ (fh : ℤ) ∧
      blendCropW fh ihh (pixelOf y fh) ≤ (ihh : ℤ)) := by
  obtain ⟨a1, a2, _, a4⟩ := blend_bounds_axis fw iw (pixelOf x fw)
  obtain ⟨b1, b2, _, b4⟩ := blend_bounds_axis fh ihh (pixelOf y fh)
  exact ⟨⟨a1, a2, a4⟩, ⟨b1, b2, b4⟩⟩

/-- Witness for C10: a 100×50 bitmap centered on a 1920×1080 frame. -/
theorem c10_witness :
    (0 ≤ blendStart 1920 100 (pixelOf (1/2) 1920) ∧
      blendEnd 1920 100 (pixelOf (1/2) 1920) ≤ (1920 : ℤ) ∧
      blendCropW 1920 100 (pixelOf (1/2) 1920) ≤ (100 : ℤ)) ∧
    (0 ≤ blendStart 1080 50 (pixelOf (1/2) 1080) ∧
      blendEnd 1080 50 (pixelOf (1/2) 1080) ≤ (1080 : ℤ) ∧
      blendCropW 1080 50 (pixelOf (1/2) 1080) ≤ (50 : ℤ)) :=
  c10_blend_in_bounds 1920 1080 100 50 (1/2) (1/2)
    (by norm_num) (by norm_num) (by norm_num) (by norm_num)
